import Mathlib

/-!
# threadpool: a bounded task queue served by worker goroutines

Embedding of `pool.go`.  The pool is a Go channel (`queue`), a
`sync.WaitGroup` (`threads`) and an `int64` counter (`capacity`).  The
sequential code of `New`, `Spawn`, `Push` and `GetCapacity` is translated to
functions.  The concurrent program (callers of the pool and the goroutines
started by `Spawn`) is an executable step function over a `System` state with
one action per operation on shared memory: channel send, receive and close,
`WaitGroup` `Add`, `Done` and `Wait`, `atomic.AddInt64`, the `go` statement.
A call of `Spawn` is therefore several actions, between which the other
goroutines can move, and the deferred function of a worker is two actions,
`Done()` and the decrement, so that `Release` can return between them.
`Spawn_as_steps` relates the function `Spawn` to the actions of a call that
nothing interrupts.

`Process()` is code of the caller of the pool.  It can return; it can panic,
and an unrecovered panic kills the Go program once the deferred function of
the worker has run; it can end its goroutine with `runtime.Goexit`, which runs
the deferred function too and lets the program live; it can run for ever, and
then the worker stays `busy`; it can end the whole program (`os.Exit`), and
then the run simply stops there.  A panic of a caller of the pool (a send on
the closed channel, a second `close`) kills the program as well.  The state
records a death by panic in `crashed` and no action happens afterwards.
The `WaitGroup` is its counter: `Add(1)` and `Done()` move it, `Wait()` returns
when it is zero.

The counter is an unbounded `Int`: it moves by at most two per goroutine
started, so the `int64` range is out of reach of any execution, and `int` is
taken to be 64 bits wide, so that `int(pool.capacity)` is the counter itself.
The logger is the discarding logger of the source and is not modelled.
-/

namespace threadpool

/-- Processable value handed to the pool, identified by a number. -/
abbrev Task := Nat

/-- Result of an operation that may complete, park the calling goroutine, or
panic. -/
inductive Outcome (α : Type) where
  | done (a : α)
  | blocked
  | panic
  deriving DecidableEq

/-- Go channel of `Processable`: capacity fixed by `make`, buffered elements
oldest first, and the closed flag. -/
structure Chan where
  cap : Nat
  buf : List Task
  closed : Bool
  deriving DecidableEq

/-- Channel creation `make(chan Processable, size)`: panics on a negative
size. -/
def Chan.make (size : Int) : Outcome Chan :=
  if size < 0 then .panic else .done { cap := size.toNat, buf := [], closed := false }

/-- Channel send `c <- t` without a receiver parked on the channel: panics on a
closed channel, appends to the buffer when there is room, parks otherwise. -/
def Chan.send (c : Chan) (t : Task) : Outcome Chan :=
  if c.closed then .panic
  else if c.buf.length < c.cap then .done { c with buf := c.buf ++ [t] }
  else .blocked

/-- Channel receive as done by `range`: the oldest buffered element if there is
one (also on a closed channel); on an empty channel, end of the range
(`none`) if it is closed, parked otherwise. -/
def Chan.recv (c : Chan) : Outcome (Option Task × Chan) :=
  match c.buf with
  | t :: rest => .done (some t, { c with buf := rest })
  | [] => if c.closed then .done (none, c) else .blocked

/-- Channel `close(c)`: panics on a closed channel. -/
def Chan.close (c : Chan) : Outcome Chan :=
  if c.closed then .panic else .done { c with closed := true }

/-- The `ThreadPool` struct: the queue channel, the `WaitGroup` counter and the
`capacity` counter. -/
structure ThreadPool where
  queue : Chan
  threads : Int
  capacity : Int
  deriving DecidableEq

/-- Why the loop of a worker is over.
`drained`: the `range` ended, the channel being closed and empty;
`panicked`: `task.Process()` panicked and the goroutine is unwinding;
`goexit`: `task.Process()` called `runtime.Goexit`. -/
inductive Ending where
  | drained
  | panicked
  | goexit
  deriving DecidableEq

/-- Whether the program dies when a goroutine that ends this way has run its
deferred function: it does after a panic only. -/
def Ending.fatal : Ending → Bool
  | .panicked => true
  | _ => false

/-- Where a worker goroutine stands in the function literal of `Spawn`.
`idle`: at the receive of `for task := range pool.queue`;
`busy t`: inside `task.Process()` for `t`;
`leaving e`: the loop is over for the reason `e`, the deferred function has not
run `pool.threads.Done()` yet;
`released e`: `Done()` has run, `atomic.AddInt64(&pool.capacity, -1)` has not;
`exited e`: the decrement has run. -/
inductive WState where
  | idle
  | busy (t : Task)
  | leaving (e : Ending)
  | released (e : Ending)
  | exited (e : Ending)
  deriving DecidableEq

/-- Worker goroutine: the `id` argument it was started with and its state. -/
structure Worker where
  id : Int
  st : WState
  deriving DecidableEq

/-- Where a call of `Spawn` stands inside its loop.
`loop`: at the test `thread <= count`;
`counted`: `atomic.AddInt64(&pool.capacity, 1)` has run for this iteration;
`registered`: `pool.threads.Add(1)` has run too, the `go` statement has not. -/
inductive SpawnPc where
  | loop
  | counted
  | registered
  deriving DecidableEq

/-- Call of `Spawn` in progress: the local `capacity` read at its entry, its
argument `count`, the loop variable `thread`, and the program point. -/
structure Call where
  capacity : Int
  count : Int
  thread : Int
  pc : SpawnPc
  deriving DecidableEq

/-- Progress of the (single supported) call of `Release`:
`waiting`: `close(pool.queue)` has run, `pool.threads.Wait()` has not returned;
`returned n`: `Release` has returned, at a moment when `n` workers had been
started. -/
inductive Phase where
  | notCalled
  | waiting
  | returned (n : Nat)
  deriving DecidableEq

/-- Whole program state: the pool, the worker goroutines in start order, the
calls of `Spawn` in progress, the observation histories (tasks whose `Push`
completed, tasks received by workers, tasks whose `Process` returned, tasks
whose `Process` ended without returning, by a panic or by `runtime.Goexit`),
the progress of `Release`, and whether the program has died of a panic. -/
structure System where
  pool : ThreadPool
  workers : List Worker
  calls : List Call
  pushed : List Task
  dequeued : List Task
  processed : List Task
  failed : List Task
  release : Phase
  crashed : Bool
  deriving DecidableEq

/-- Constructor `New(queueSize)`: the channel of the given size, a zero
`WaitGroup`, a zero counter. -/
def New (queueSize : Int) : Outcome ThreadPool :=
  match Chan.make queueSize with
  | .done q => .done { queue := q, threads := 0, capacity := 0 }
  | .blocked => .blocked
  | .panic => .panic

/-- Program state right after `New`: no goroutine, no call in progress, empty
histories. -/
def start (pool : ThreadPool) : System :=
  { pool := pool, workers := [], calls := [], pushed := [], dequeued := [], processed := [],
    failed := [], release := .notCalled, crashed := false }

/-- One iteration of the loop of `Spawn`: `atomic.AddInt64(&pool.capacity, 1)`,
`pool.threads.Add(1)`, and `go func(id int) ...` with the given `id`. -/
def spawnThread (s : System) (id : Int) : System :=
  { s with
    pool := { s.pool with capacity := s.pool.capacity + 1, threads := s.pool.threads + 1 }
    workers := s.workers ++ [{ id := id, st := .idle }] }

/-- Loop `for thread := ...; thread <= count; thread++` of `Spawn` with `n`
iterations left; `capacity` is the snapshot taken at the entry of `Spawn`. -/
def spawnLoop (capacity : Int) : Nat → Int → System → System
  | 0, _, s => s
  | n + 1, thread, s => spawnLoop capacity n (thread + 1) (spawnThread s (capacity + thread))

/-- Method `Spawn(count)` run without interruption: the loop from `thread = 1`
while `thread <= count` (that is `count.toNat` iterations), then
`atomic.AddInt64(&pool.capacity, int64(count))`. -/
def Spawn (s : System) (count : Int) : System :=
  let capacity := s.pool.capacity
  let s1 := spawnLoop capacity count.toNat 1 s
  { s1 with pool := { s1.pool with capacity := s1.pool.capacity + count } }

/-- Method `Push(task)`: the send `pool.queue <- task`. -/
def Push (pool : ThreadPool) (task : Task) : Outcome ThreadPool :=
  match pool.queue.send task with
  | .done q => .done { pool with queue := q }
  | .blocked => .blocked
  | .panic => .panic

/-- Method `GetCapacity()`: the value of the counter. -/
def GetCapacity (pool : ThreadPool) : Int :=
  pool.capacity

/-- Atomic actions of the program.  `spawn`, `spawnStep`, `push`, `close`,
`wait` are moves of the callers of the pool (`j`: position of a call of `Spawn`
among those in progress), the others are moves of worker number `i` (position
in start order). -/
inductive Action where
  | spawn (count : Int)
  | spawnStep (j : Nat)
  | push (t : Task)
  | handoff (i : Nat) (t : Task)
  | recv (i : Nat)
  | ret (i : Nat)
  | fail (i : Nat)
  | quit (i : Nat)
  | done (i : Nat)
  | dec (i : Nat)
  | close
  | wait
  deriving DecidableEq

/-- State of worker `i`, if there is such a worker. -/
def stateOf (s : System) (i : Nat) : Option WState :=
  (s.workers[i]?).map Worker.st

/-- Worker list with the state of worker `i` replaced. -/
def setState (ws : List Worker) (i : Nat) (st : WState) : List Worker :=
  match ws[i]? with
  | some w => ws.set i { w with st := st }
  | none => ws

/-- The program dies of an unrecovered panic. -/
def crash (s : System) : System :=
  { s with crashed := true }

/-- Next shared-memory operation of the call `c` of `Spawn`, which is number `j`
among the calls in progress.
At `loop` with `thread <= count`: `atomic.AddInt64(&pool.capacity, 1)`;
at `loop` with the loop over: `atomic.AddInt64(&pool.capacity, int64(count))`
and the call returns;
at `counted`: `pool.threads.Add(1)`;
at `registered`: `go func(id int) ...` with `id = int(capacity) + thread`, then
`thread++`. -/
def spawnStep (s : System) (j : Nat) (c : Call) : System :=
  match c.pc with
  | .loop =>
    if c.thread ≤ c.count then
      { s with
        pool := { s.pool with capacity := s.pool.capacity + 1 }
        calls := s.calls.set j { c with pc := .counted } }
    else
      { s with
        pool := { s.pool with capacity := s.pool.capacity + c.count }
        calls := s.calls.eraseIdx j }
  | .counted =>
    { s with
      pool := { s.pool with threads := s.pool.threads + 1 }
      calls := s.calls.set j { c with pc := .registered } }
  | .registered =>
    { s with
      workers := s.workers ++ [{ id := c.capacity + c.thread, st := .idle }]
      calls := s.calls.set j { c with thread := c.thread + 1, pc := .loop } }

/-- One atomic action; `none` when the action cannot happen in this state (the
goroutine is parked, or is not at that program point, or the program is dead).

* `spawn count`: a call of `Spawn(count)` starts and reads `pool.capacity`.
* `spawnStep j`: the call number `j` of `Spawn` does its next operation.
* `push t`: `Push(t)` whose send completes by buffering, or panics because the
  channel is closed.
* `handoff i t`: `Push(t)` on an open channel whose buffer is full (always so
  for size 0), completing together with the receive of the parked worker `i`:
  the worker gets the oldest element of buffer-plus-`t`, the rest stays
  buffered.
* `recv i`: worker `i` receives at `range`: a task, or the end of the loop.
* `ret i` / `fail i` / `quit i`: `task.Process()` of worker `i` returns /
  panics / calls `runtime.Goexit`.
* `done i`: deferred `pool.threads.Done()` (panics on a negative counter).
* `dec i`: deferred `atomic.AddInt64(&pool.capacity, -1)`; the goroutine ends,
  and the program dies if it was unwinding a panic.
* `close`: `close(pool.queue)` of `Release`.
* `wait`: `pool.threads.Wait()` of `Release` returns (counter at zero). -/
def step (s : System) (a : Action) : Option System :=
  if s.crashed then none else
  match a with
  | .spawn count =>
    some { s with
      calls := s.calls ++ [{ capacity := s.pool.capacity, count := count, thread := 1,
                             pc := .loop }] }
  | .spawnStep j =>
    match s.calls[j]? with
    | some c => some (spawnStep s j c)
    | none => none
  | .push t =>
    match Push s.pool t with
    | .done p => some { s with pool := p, pushed := s.pushed ++ [t] }
    | .blocked => none
    | .panic => some (crash s)
  | .handoff i t =>
    match stateOf s i with
    | some .idle =>
      if s.pool.queue.closed = false ∧ s.pool.queue.buf.length = s.pool.queue.cap then
        match s.pool.queue.buf ++ [t] with
        | x :: rest =>
          some { s with
            pool := { s.pool with queue := { s.pool.queue with buf := rest } }
            workers := setState s.workers i (.busy x)
            pushed := s.pushed ++ [t]
            dequeued := s.dequeued ++ [x] }
        | [] => none
      else none
    | _ => none
  | .recv i =>
    match stateOf s i with
    | some .idle =>
      match s.pool.queue.recv with
      | .done (some t, q) =>
        some { s with
          pool := { s.pool with queue := q }
          workers := setState s.workers i (.busy t)
          dequeued := s.dequeued ++ [t] }
      | .done (none, _) =>
        some { s with workers := setState s.workers i (.leaving .drained) }
      | .blocked => none
      | .panic => none
    | _ => none
  | .ret i =>
    match stateOf s i with
    | some (.busy t) =>
      some { s with workers := setState s.workers i .idle, processed := s.processed ++ [t] }
    | _ => none
  | .fail i =>
    match stateOf s i with
    | some (.busy t) =>
      some { s with
        workers := setState s.workers i (.leaving .panicked)
        failed := s.failed ++ [t] }
    | _ => none
  | .quit i =>
    match stateOf s i with
    | some (.busy t) =>
      some { s with
        workers := setState s.workers i (.leaving .goexit)
        failed := s.failed ++ [t] }
    | _ => none
  | .done i =>
    match stateOf s i with
    | some (.leaving e) =>
      if s.pool.threads - 1 < 0 then some (crash s)
      else some { s with
        pool := { s.pool with threads := s.pool.threads - 1 }
        workers := setState s.workers i (.released e) }
    | _ => none
  | .dec i =>
    match stateOf s i with
    | some (.released e) =>
      some { s with
        pool := { s.pool with capacity := s.pool.capacity - 1 }
        workers := setState s.workers i (.exited e)
        crashed := e.fatal }
    | _ => none
  | .close =>
    match s.pool.queue.close with
    | .done q => some { s with pool := { s.pool with queue := q }, release := .waiting }
    | .blocked => none
    | .panic => some (crash s)
  | .wait =>
    if s.release = .waiting ∧ s.pool.threads = 0 then
      some { s with release := .returned s.workers.length }
    else none

/-- Run a schedule: the actions one after the other, `none` as soon as one of
them cannot happen. -/
def exec : System → List Action → Option System
  | s, [] => some s
  | s, a :: as => (step s a).bind fun s1 => exec s1 as

/-- Schedule of a whole call `Spawn(count)` that nothing interrupts, started
when `j` calls are in progress: the entry, three operations per iteration, the
final addition. -/
def spawnCall (j : Nat) (count : Int) : List Action :=
  .spawn count :: List.replicate (3 * count.toNat + 1) (.spawnStep j)

/-! ## Observations on a state, schedules, invariants -/

/-- Sum over a list of a weight given to its elements. -/
def total {α : Type} (f : α → Int) (l : List α) : Int :=
  (l.map f).sum

/-- Sum over the workers of a weight given to their state. -/
def tally (f : WState → Int) (ws : List Worker) : Int :=
  total (fun w => f w.st) ws

/-- Weight 1 on the workers that have not run `pool.threads.Done()` yet. -/
def notDone : WState → Int
  | .idle => 1
  | .busy _ => 1
  | .leaving _ => 1
  | _ => 0

/-- Weight 1 on the workers inside `Process()` of task `t`. -/
def isBusy (t : Task) : WState → Int
  | .busy u => if u = t then 1 else 0
  | _ => 0

/-- Weight 1 on the workers inside `Process()`. -/
def busyAny : WState → Int
  | .busy _ => 1
  | _ => 0

/-- Weight 1 on the workers whose loop ended because the channel was closed
and drained. -/
def normalExit : WState → Int
  | .leaving .drained => 1
  | .released .drained => 1
  | .exited .drained => 1
  | _ => 0

/-- Weight 1 on the workers whose loop ended inside `Process()`, by a panic or
by `runtime.Goexit`. -/
def flagged : WState → Int
  | .leaving .panicked => 1
  | .leaving .goexit => 1
  | .released .panicked => 1
  | .released .goexit => 1
  | .exited .panicked => 1
  | .exited .goexit => 1
  | _ => 0

/-- Weight 1 on the workers whose deferred decrement has run. -/
def isExited : WState → Int
  | .exited _ => 1
  | _ => 0

/-- Weight 1 on the calls of `Spawn` that have run `pool.threads.Add(1)` for a
worker not started yet. -/
def pendingAdd (c : Call) : Int :=
  match c.pc with
  | .registered => 1
  | _ => 0

/-- Number of workers a call of `Spawn` in progress has started. -/
def launched (c : Call) : Int :=
  c.thread - 1

/-- What a call of `Spawn` in progress has still to add to the counter for the
count of its workers to be doubled: one per worker started, less the
increment already made for the worker being started. -/
def owed (c : Call) : Int :=
  match c.pc with
  | .loop => c.thread - 1
  | _ => c.thread - 2

/-- Bounds on the loop variable of a call of `Spawn` with a non-negative
argument. -/
def CallOk (c : Call) : Prop :=
  0 ≤ c.count ∧ 1 ≤ c.thread ∧ c.thread ≤ c.count + 1 ∧ (c.pc ≠ .loop → c.thread ≤ c.count)

/-- Number of worker goroutines started so far. -/
def started (s : System) : Nat :=
  s.workers.length

/-- Number of worker goroutines that have exited (deferred function done). -/
def exited (s : System) : Nat :=
  s.workers.countP fun w => match w.st with
    | .exited _ => true
    | _ => false

/-- The action is not a `Spawn` call with a negative count. -/
def nonNegSpawn : Action → Bool
  | .spawn count => decide (0 ≤ count)
  | _ => true

/-- Every `Spawn` call of the schedule has a non-negative count. -/
def nonNegSpawns (acts : List Action) : Bool :=
  acts.all nonNegSpawn

/-- The action is not the start of a `Spawn` call. -/
def notSpawn : Action → Bool
  | .spawn _ => false
  | _ => true

/-- The schedule has no `Spawn` call at all. -/
def noSpawn (acts : List Action) : Bool :=
  acts.all notSpawn

/-- Relational form of `step`, one constructor per way an action can happen. -/
inductive Trans : System → Action → System → Prop where
  | spawn (s : System) (count : Int) :
      Trans s (.spawn count)
        { s with
          calls := s.calls ++ [{ capacity := s.pool.capacity, count := count, thread := 1,
                                 pc := .loop }] }
  | callInc (s : System) (j : Nat) (c : Call) (hc : s.calls[j]? = some c)
      (hpc : c.pc = .loop) (hle : c.thread ≤ c.count) :
      Trans s (.spawnStep j)
        { s with
          pool := { s.pool with capacity := s.pool.capacity + 1 }
          calls := s.calls.set j { c with pc := .counted } }
  | callEnd (s : System) (j : Nat) (c : Call) (hc : s.calls[j]? = some c)
      (hpc : c.pc = .loop) (hgt : ¬ c.thread ≤ c.count) :
      Trans s (.spawnStep j)
        { s with
          pool := { s.pool with capacity := s.pool.capacity + c.count }
          calls := s.calls.eraseIdx j }
  | callAdd (s : System) (j : Nat) (c : Call) (hc : s.calls[j]? = some c)
      (hpc : c.pc = .counted) :
      Trans s (.spawnStep j)
        { s with
          pool := { s.pool with threads := s.pool.threads + 1 }
          calls := s.calls.set j { c with pc := .registered } }
  | callGo (s : System) (j : Nat) (c : Call) (hc : s.calls[j]? = some c)
      (hpc : c.pc = .registered) :
      Trans s (.spawnStep j)
        { s with
          workers := s.workers ++ [{ id := c.capacity + c.thread, st := .idle }]
          calls := s.calls.set j { c with thread := c.thread + 1, pc := .loop } }
  | push (s : System) (t : Task) (hopen : s.pool.queue.closed = false)
      (hroom : s.pool.queue.buf.length < s.pool.queue.cap) :
      Trans s (.push t)
        { s with
          pool := { s.pool with queue := { s.pool.queue with buf := s.pool.queue.buf ++ [t] } }
          pushed := s.pushed ++ [t] }
  | pushPanic (s : System) (t : Task) (hclosed : s.pool.queue.closed = true) :
      Trans s (.push t) (crash s)
  | handoff (s : System) (i : Nat) (t x : Task) (rest : List Task)
      (hst : stateOf s i = some .idle) (hopen : s.pool.queue.closed = false)
      (hfull : s.pool.queue.buf.length = s.pool.queue.cap)
      (hx : s.pool.queue.buf ++ [t] = x :: rest) :
      Trans s (.handoff i t)
        { s with
          pool := { s.pool with queue := { s.pool.queue with buf := rest } }
          workers := setState s.workers i (.busy x)
          pushed := s.pushed ++ [t]
          dequeued := s.dequeued ++ [x] }
  | recvTask (s : System) (i : Nat) (t : Task) (rest : List Task)
      (hst : stateOf s i = some .idle) (hbuf : s.pool.queue.buf = t :: rest) :
      Trans s (.recv i)
        { s with
          pool := { s.pool with queue := { s.pool.queue with buf := rest } }
          workers := setState s.workers i (.busy t)
          dequeued := s.dequeued ++ [t] }
  | recvEnd (s : System) (i : Nat)
      (hst : stateOf s i = some .idle) (hbuf : s.pool.queue.buf = [])
      (hclosed : s.pool.queue.closed = true) :
      Trans s (.recv i) { s with workers := setState s.workers i (.leaving .drained) }
  | ret (s : System) (i : Nat) (t : Task) (hst : stateOf s i = some (.busy t)) :
      Trans s (.ret i)
        { s with workers := setState s.workers i .idle, processed := s.processed ++ [t] }
  | fail (s : System) (i : Nat) (t : Task) (hst : stateOf s i = some (.busy t)) :
      Trans s (.fail i)
        { s with
          workers := setState s.workers i (.leaving .panicked)
          failed := s.failed ++ [t] }
  | quit (s : System) (i : Nat) (t : Task) (hst : stateOf s i = some (.busy t)) :
      Trans s (.quit i)
        { s with
          workers := setState s.workers i (.leaving .goexit)
          failed := s.failed ++ [t] }
  | done (s : System) (i : Nat) (p : Ending) (hst : stateOf s i = some (.leaving p))
      (hpos : ¬ s.pool.threads - 1 < 0) :
      Trans s (.done i)
        { s with
          pool := { s.pool with threads := s.pool.threads - 1 }
          workers := setState s.workers i (.released p) }
  | donePanic (s : System) (i : Nat) (p : Ending) (hst : stateOf s i = some (.leaving p))
      (hneg : s.pool.threads - 1 < 0) :
      Trans s (.done i) (crash s)
  | dec (s : System) (i : Nat) (p : Ending) (hst : stateOf s i = some (.released p)) :
      Trans s (.dec i)
        { s with
          pool := { s.pool with capacity := s.pool.capacity - 1 }
          workers := setState s.workers i (.exited p)
          crashed := p.fatal }
  | close (s : System) (hopen : s.pool.queue.closed = false) :
      Trans s .close
        { s with
          pool := { s.pool with queue := { s.pool.queue with closed := true } }
          release := .waiting }
  | closePanic (s : System) (hclosed : s.pool.queue.closed = true) :
      Trans s .close (crash s)
  | wait (s : System) (hrel : s.release = .waiting) (hzero : s.pool.threads = 0) :
      Trans s .wait { s with release := .returned s.workers.length }

/-- Invariant of the states reachable from `New(C)`, whatever the schedule. -/
structure Inv (C : Nat) (s : System) : Prop where
  cap : s.pool.queue.cap = C
  fifo : s.dequeued ++ s.pool.queue.buf = s.pushed
  bound : s.pool.queue.buf.length ≤ s.pool.queue.cap
  wg : s.pool.threads = tally notDone s.workers + total pendingAdd s.calls
  acct : ∀ t, (s.dequeued.count t : Int)
      = s.processed.count t + s.failed.count t + tally (isBusy t) s.workers
  drained : 0 < tally normalExit s.workers →
      s.pool.queue.closed = true ∧ s.pool.queue.buf = []
  nofail : s.failed = [] → tally flagged s.workers = 0
  phase : s.release = .notCalled ↔ s.pool.queue.closed = false
  after : ∀ n, s.release = .returned n → 1 ≤ n → s.failed = [] →
      s.pool.queue.buf = [] ∧ tally busyAny s.workers = 0

/-- Invariant of the counter in the runs whose `Spawn` calls have non-negative
counts: two per worker started, minus one per worker exited, minus what the
calls in progress have still to add. -/
structure CapInv (s : System) : Prop where
  value : s.pool.capacity
      = 2 * (s.workers.length : Int) - tally isExited s.workers - total owed s.calls
  mine : total launched s.calls ≤ (s.workers.length : Int)
  ok : ∀ c ∈ s.calls, CallOk c

/-! ## Concrete runs used as instances -/

/-- Pool returned by `New(0)`. -/
def pool0 : ThreadPool :=
  { queue := { cap := 0, buf := [], closed := false }, threads := 0, capacity := 0 }

/-- Pool returned by `New(1)`. -/
def pool1 : ThreadPool :=
  { queue := { cap := 1, buf := [], closed := false }, threads := 0, capacity := 0 }

/-- Pool returned by `New(5)`. -/
def pool5 : ThreadPool :=
  { queue := { cap := 5, buf := [], closed := false }, threads := 0, capacity := 0 }

/-- Schedule on `New(1)`: a push, `Spawn(2)`, a second push handed to worker 1
on the full buffer, both tasks processed, then `Release` to its end. -/
def fullRun : List Action :=
  .push 7 :: spawnCall 0 2 ++
    [.handoff 1 8, .recv 0, .ret 1, .ret 0, .close, .recv 0, .recv 1,
     .done 0, .done 1, .wait, .dec 1, .dec 0]

/-- State at the end of `fullRun`. -/
def fullRunEnd : System :=
  { pool := { queue := { cap := 1, buf := [], closed := true }, threads := 0, capacity := 2 }
    workers := [{ id := 1, st := .exited .drained }, { id := 2, st := .exited .drained }]
    calls := []
    pushed := [7, 8], dequeued := [7, 8], processed := [7, 8], failed := []
    release := .returned 2, crashed := false }

/-- Schedule on `New(1)` that stops inside a call `Spawn(2)`: the first worker
is started and takes task 7, the call has counted its second worker, and task
8 is buffered. -/
def midRun : List Action :=
  [.spawn 2, .spawnStep 0, .spawnStep 0, .spawnStep 0, .push 7, .recv 0, .spawnStep 0, .push 8]

/-- State at the end of `midRun`. -/
def midRunEnd : System :=
  { pool := { queue := { cap := 1, buf := [8], closed := false }, threads := 1, capacity := 2 }
    workers := [{ id := 1, st := .busy 7 }]
    calls := [{ capacity := 0, count := 2, thread := 2, pc := .counted }]
    pushed := [7, 8], dequeued := [7], processed := [], failed := []
    release := .notCalled, crashed := false }

/-- Schedule on `New(5)`: `Spawn(3)`, then `n` tasks each pushed, received and
processed in turn by the workers, then `Release` until it returns. -/
def countingRun (n : Nat) : List Action :=
  spawnCall 0 3 ++ ((List.range n).flatMap fun j => [.push j, .recv (j % 3), .ret (j % 3)]) ++
    [.close, .recv 0, .recv 1, .recv 2, .done 0, .done 1, .done 2, .wait]

/-- State at the end of `countingRun n`. -/
def countingEnd (n : Nat) : System :=
  { pool := { queue := { cap := 5, buf := [], closed := true }, threads := 0, capacity := 6 }
    workers := [{ id := 1, st := .released .drained }, { id := 2, st := .released .drained },
      { id := 3, st := .released .drained }]
    calls := []
    pushed := List.range n, dequeued := List.range n, processed := List.range n, failed := []
    release := .returned 3, crashed := false }

/-- State of `New(0)` after `Spawn(1)`. -/
def spawnedOne : System :=
  { pool := { queue := { cap := 0, buf := [], closed := false }, threads := 1, capacity := 2 }
    workers := [{ id := 1, st := .idle }]
    calls := []
    pushed := [], dequeued := [], processed := [], failed := []
    release := .notCalled, crashed := false }

/-- State of `New(0)` after `Spawn(1)` and `Release()`, the moment `Release`
returns: the worker has run `Done()`, not yet its decrement. -/
def releasedEarly : System :=
  { pool := { queue := { cap := 0, buf := [], closed := true }, threads := 0, capacity := 2 }
    workers := [{ id := 1, st := .released .drained }]
    calls := []
    pushed := [], dequeued := [], processed := [], failed := []
    release := .returned 1, crashed := false }

/-- State of `New(0)` after `Spawn(1)` and `Release()`, once the worker has
exited. -/
def releasedLate : System :=
  { pool := { queue := { cap := 0, buf := [], closed := true }, threads := 0, capacity := 1 }
    workers := [{ id := 1, st := .exited .drained }]
    calls := []
    pushed := [], dequeued := [], processed := [], failed := []
    release := .returned 1, crashed := false }

/-- State of `New(1)` after `Push(7)` and `Release()` without any worker. -/
def releasedUnserved : System :=
  { pool := { queue := { cap := 1, buf := [7], closed := true }, threads := 0, capacity := 0 }
    workers := []
    calls := []
    pushed := [7], dequeued := [], processed := [], failed := []
    release := .returned 0, crashed := false }

/-- State of `New(1)` after `Spawn(1)`, `Push(7)`, a panic of `Process` on task
7, and `Release()` returning between the worker's `Done()` and the death of the
program. -/
def releasedPanicked : System :=
  { pool := { queue := { cap := 1, buf := [], closed := true }, threads := 0, capacity := 2 }
    workers := [{ id := 1, st := .released .panicked }]
    calls := []
    pushed := [7], dequeued := [7], processed := [], failed := [7]
    release := .returned 1, crashed := false }

/-- State of `New(5)` after `Spawn(1)`, `Push(7)`, `Push(8)`, the worker taking
task 7 whose `Process` calls `runtime.Goexit`, and `Release()`: it has returned,
nothing has panicked, the program lives, and task 8 is still buffered. -/
def releasedQuit : System :=
  { pool := { queue := { cap := 5, buf := [8], closed := true }, threads := 0, capacity := 2 }
    workers := [{ id := 1, st := .released .goexit }]
    calls := []
    pushed := [7, 8], dequeued := [7], processed := [], failed := [7]
    release := .returned 1, crashed := false }

/-- State of `New(1)` after `Push(7)` without any worker. -/
def pushedOne : System :=
  { pool := { queue := { cap := 1, buf := [7], closed := false }, threads := 0, capacity := 0 }
    workers := []
    calls := []
    pushed := [7], dequeued := [], processed := [], failed := []
    release := .notCalled, crashed := false }

/-! ## Lemmas on the counting functions -/

theorem total_nil {α : Type} (f : α → Int) : total f [] = 0 := rfl

theorem total_cons {α : Type} (f : α → Int) (a : α) (l : List α) :
    total f (a :: l) = f a + total f l := by
  simp [total]

theorem total_append {α : Type} (f : α → Int) (a b : List α) :
    total f (a ++ b) = total f a + total f b := by
  simp [total]

theorem total_nonneg {α : Type} (f : α → Int) (hf : ∀ a, 0 ≤ f a) (l : List α) :
    0 ≤ total f l := by
  induction l with
  | nil => simp [total_nil]
  | cons a l ih => rw [total_cons]; have := hf a; omega

theorem total_le {α : Type} (f g : α → Int) (l : List α) (h : ∀ a ∈ l, f a ≤ g a) :
    total f l ≤ total g l := by
  induction l with
  | nil => simp [total_nil]
  | cons a l ih =>
    rw [total_cons, total_cons]
    have h1 := h a (List.mem_cons_self a l)
    have h2 := ih fun b hb => h b (List.mem_cons_of_mem a hb)
    omega

theorem total_set {α : Type} (f : α → Int) (l : List α) (i : Nat) (a b : α)
    (h : l[i]? = some a) : total f (l.set i b) = total f l - f a + f b := by
  induction l generalizing i with
  | nil => simp at h
  | cons x l ih =>
    cases i with
    | zero =>
      simp only [List.getElem?_cons_zero, Option.some.injEq] at h
      simp only [List.set_cons_zero, total_cons, h]
      omega
    | succ i =>
      simp only [List.getElem?_cons_succ] at h
      simp only [List.set_cons_succ, total_cons, ih i h]
      omega

theorem total_eraseIdx {α : Type} (f : α → Int) (l : List α) (i : Nat) (a : α)
    (h : l[i]? = some a) : total f (l.eraseIdx i) = total f l - f a := by
  induction l generalizing i with
  | nil => simp at h
  | cons x l ih =>
    cases i with
    | zero =>
      simp only [List.getElem?_cons_zero, Option.some.injEq] at h
      simp only [List.eraseIdx_cons_zero, total_cons, h]
      omega
    | succ i =>
      simp only [List.getElem?_cons_succ] at h
      simp only [List.eraseIdx_cons_succ, total_cons, ih i h]
      omega

theorem tally_nil (f : WState → Int) : tally f [] = 0 := rfl

theorem tally_cons (f : WState → Int) (w : Worker) (ws : List Worker) :
    tally f (w :: ws) = f w.st + tally f ws := by
  simp [tally, total_cons]

theorem tally_append (f : WState → Int) (a b : List Worker) :
    tally f (a ++ b) = tally f a + tally f b := by
  simp [tally, total_append]

theorem tally_nonneg (f : WState → Int) (hf : ∀ st, 0 ≤ f st) (ws : List Worker) :
    0 ≤ tally f ws :=
  total_nonneg (fun w : Worker => f w.st) (fun w => hf w.st) ws

theorem tally_le (f g : WState → Int) (h : ∀ st, f st ≤ g st) (ws : List Worker) :
    tally f ws ≤ tally g ws :=
  total_le (fun w : Worker => f w.st) (fun w : Worker => g w.st) ws fun w _ => h w.st

theorem tally_setState (f : WState → Int) (ws : List Worker) (i : Nat) (st0 st : WState)
    (h : (ws[i]?).map Worker.st = some st0) :
    tally f (setState ws i st) = tally f ws - f st0 + f st := by
  cases hw : ws[i]? with
  | none => simp [hw] at h
  | some w =>
    simp only [hw, Option.map_some', Option.some.injEq] at h
    simp only [setState, hw, tally]
    rw [total_set _ ws i w _ hw, h]

theorem length_setState (ws : List Worker) (i : Nat) (st : WState) :
    (setState ws i st).length = ws.length := by
  unfold setState
  split <;> simp

theorem length_le_tally (ws : List Worker) :
    (ws.length : Int) ≤ tally notDone ws + tally normalExit ws + tally flagged ws := by
  induction ws with
  | nil => simp [tally_nil]
  | cons w ws ih =>
    simp only [tally_cons, List.length_cons]
    have : 1 ≤ notDone w.st + normalExit w.st + flagged w.st := by
      cases hw : w.st with
      | idle => simp [notDone, normalExit, flagged]
      | busy t => simp [notDone, normalExit, flagged]
      | leaving p => cases p <;> simp [notDone, normalExit, flagged]
      | released p => cases p <;> simp [notDone, normalExit, flagged]
      | exited p => cases p <;> simp [notDone, normalExit, flagged]
    push_cast
    omega

theorem notDone_nonneg (st : WState) : 0 ≤ notDone st := by
  cases st <;> simp [notDone]

theorem isBusy_nonneg (t : Task) (st : WState) : 0 ≤ isBusy t st := by
  cases st <;> simp [isBusy]
  split <;> simp

theorem busyAny_nonneg (st : WState) : 0 ≤ busyAny st := by
  cases st <;> simp [busyAny]

theorem normalExit_nonneg (st : WState) : 0 ≤ normalExit st := by
  cases st with
  | leaving p => cases p <;> simp [normalExit]
  | released p => cases p <;> simp [normalExit]
  | exited p => cases p <;> simp [normalExit]
  | _ => simp [normalExit]

theorem flagged_nonneg (st : WState) : 0 ≤ flagged st := by
  cases st with
  | leaving p => cases p <;> simp [flagged]
  | released p => cases p <;> simp [flagged]
  | exited p => cases p <;> simp [flagged]
  | _ => simp [flagged]

theorem pendingAdd_nonneg (c : Call) : 0 ≤ pendingAdd c := by
  unfold pendingAdd
  split <;> simp

theorem busyAny_le_notDone (st : WState) : busyAny st ≤ notDone st := by
  cases st <;> simp [busyAny, notDone]

theorem isBusy_le_busyAny (t : Task) (st : WState) : isBusy t st ≤ busyAny st := by
  cases st <;> simp [isBusy, busyAny]
  split <;> simp

theorem isExited_le_one (st : WState) : isExited st ≤ 1 := by
  cases st <;> simp [isExited]

theorem tally_isExited_le_length (ws : List Worker) : tally isExited ws ≤ ws.length := by
  induction ws with
  | nil => simp [tally_nil]
  | cons w ws ih =>
    simp only [tally_cons, List.length_cons]
    have := isExited_le_one w.st
    push_cast
    omega

theorem exited_eq_tally (s : System) : (exited s : Int) = tally isExited s.workers := by
  unfold exited
  induction s.workers with
  | nil => simp [tally_nil]
  | cons w ws ih =>
    rw [List.countP_cons, tally_cons]
    push_cast
    rw [ih]
    cases w.st <;> simp [isExited]
    all_goals omega

theorem owed_le_launched (c : Call) : owed c ≤ launched c := by
  unfold owed launched
  split <;> omega

theorem tally_busyAny_zero (ws : List Worker) (h : tally busyAny ws = 0) :
    ∀ w ∈ ws, ∀ t, w.st ≠ .busy t := by
  induction ws with
  | nil => simp
  | cons w0 ws ih =>
    rw [tally_cons] at h
    have h1 := busyAny_nonneg w0.st
    have h2 := tally_nonneg busyAny busyAny_nonneg ws
    intro w hw t
    rcases List.mem_cons.1 hw with rfl | hw
    · intro hst
      rw [hst] at h
      simp only [busyAny] at h
      omega
    · exact ih (by omega) w hw t

/-! ## The step function in relational form -/

theorem step_sound (s s1 : System) (a : Action) (h : step s a = some s1) : Trans s a s1 := by
  unfold step at h
  split at h
  · simp at h
  · split at h
    · simp only [Option.some.injEq] at h; subst h; exact Trans.spawn s _
    · rename_i j
      split at h
      · rename_i c hc
        simp only [Option.some.injEq] at h
        subst h
        unfold spawnStep
        cases hpc : c.pc with
        | loop =>
          by_cases hle : c.thread ≤ c.count
          · simp only [hle, if_true]; exact Trans.callInc s j c hc hpc hle
          · simp only [hle, if_false]; exact Trans.callEnd s j c hc hpc hle
        | counted => exact Trans.callAdd s j c hc hpc
        | registered => exact Trans.callGo s j c hc hpc
      · simp at h
    · rename_i t
      simp only [Push, Chan.send] at h
      by_cases hc : s.pool.queue.closed = true
      · simp [hc] at h; subst h; exact Trans.pushPanic s t hc
      · by_cases hr : s.pool.queue.buf.length < s.pool.queue.cap
        · rw [if_neg hc, if_pos hr] at h
          simp only [Option.some.injEq] at h
          subst h
          exact Trans.push s t (by simpa using hc) hr
        · simp [hc, hr] at h
    · rename_i i t
      split at h
      · rename_i hst
        split at h
        · rename_i hcond
          split at h
          · rename_i x rest hx
            simp at h; subst h
            exact Trans.handoff s i t x rest hst hcond.1 hcond.2 hx
          · simp at h
        · simp at h
      · simp at h
    · rename_i i
      split at h
      · rename_i hst
        simp only [Chan.recv] at h
        cases hb : s.pool.queue.buf with
        | nil =>
          by_cases hc : s.pool.queue.closed = true
          · simp [hb, hc] at h; subst h; exact Trans.recvEnd s i hst hb hc
          · simp [hb, hc] at h
        | cons t rest =>
          simp [hb] at h; subst h
          exact Trans.recvTask s i t rest hst hb
      · simp at h
    · rename_i i
      split at h
      · rename_i t hst
        simp at h; subst h; exact Trans.ret s i t hst
      · simp at h
    · rename_i i
      split at h
      · rename_i t hst
        simp at h; subst h; exact Trans.fail s i t hst
      · simp at h
    · rename_i i
      split at h
      · rename_i t hst
        simp at h; subst h; exact Trans.quit s i t hst
      · simp at h
    · rename_i i
      split at h
      · rename_i p hst
        split at h
        · rename_i hneg
          simp at h; subst h; exact Trans.donePanic s i p hst hneg
        · rename_i hpos
          simp at h; subst h; exact Trans.done s i p hst hpos
      · simp at h
    · rename_i i
      split at h
      · rename_i p hst
        simp at h; subst h; exact Trans.dec s i p hst
      · simp at h
    · simp only [Chan.close] at h
      by_cases hc : s.pool.queue.closed = true
      · simp [hc] at h; subst h; exact Trans.closePanic s hc
      · simp [hc] at h; subst h; exact Trans.close s (by simpa using hc)
    · split at h
      · rename_i hcond
        simp at h; subst h; exact Trans.wait s hcond.1 hcond.2
      · simp at h

/-! ## The invariant of the reachable states -/

theorem new_nonneg (C : Int) (p : ThreadPool) (h : New C = .done p) : 0 ≤ C := by
  unfold New Chan.make at h
  by_cases hC : C < 0
  · simp [hC] at h
  · omega

theorem inv_start (C : Int) (p : ThreadPool) (h : New C = .done p) : Inv C.toNat (start p) := by
  unfold New Chan.make at h
  by_cases hC : C < 0
  · simp [hC] at h
  · simp only [hC, if_false, Outcome.done.injEq] at h
    subst h
    constructor <;> simp [start, tally_nil, total_nil]

theorem inv_crash (C : Nat) (s : System) (h : Inv C s) : Inv C (crash s) := by
  obtain ⟨h1, h2, h3, h4, h5, h6, h7, h8, h9⟩ := h
  exact ⟨h1, h2, h3, h4, h5, h6, h7, h8, h9⟩

/-- The invariant depends on the calls of `Spawn` in progress through the
`WaitGroup` counter only. -/
theorem inv_calls (C : Nat) (s : System) (cs : List Call) (cap : Int) (h : Inv C s)
    (hp : total pendingAdd cs = total pendingAdd s.calls) :
    Inv C { s with pool := { s.pool with capacity := cap }, calls := cs } := by
  obtain ⟨h1, h2, h3, h4, h5, h6, h7, h8, h9⟩ := h
  exact ⟨h1, h2, h3, by rw [hp]; exact h4, h5, h6, h7, h8, h9⟩

theorem inv_step (C : Nat) (s s1 : System) (a : Action) (h : Inv C s) (ht : Trans s a s1) :
    Inv C s1 := by
  have h0 := h
  obtain ⟨hcap, hfifo, hbound, hwg, hacct, hdrained, hnofail, hphase, hafter⟩ := h
  have nnB := tally_nonneg busyAny busyAny_nonneg s.workers
  have nnN := tally_nonneg normalExit normalExit_nonneg s.workers
  have nnF := tally_nonneg flagged flagged_nonneg s.workers
  have nnD := tally_nonneg notDone notDone_nonneg s.workers
  have nnP := total_nonneg pendingAdd pendingAdd_nonneg s.calls
  have leBD := tally_le busyAny notDone busyAny_le_notDone s.workers
  cases ht with
  | spawn count =>
    exact inv_calls C s _ s.pool.capacity h0
      (by simp [total_append, total_cons, total_nil, pendingAdd])
  | callInc j c hc hpc hle =>
    exact inv_calls C s _ _ h0 (by rw [total_set _ _ _ _ _ hc]; simp [pendingAdd, hpc])
  | callEnd j c hc hpc hgt =>
    exact inv_calls C s _ _ h0 (by rw [total_eraseIdx _ _ _ _ hc]; simp [pendingAdd, hpc])
  | callAdd j c hc hpc =>
    refine ⟨hcap, hfifo, hbound, ?_, hacct, hdrained, hnofail, hphase, hafter⟩
    simp only [total_set _ _ _ _ _ hc, hwg, pendingAdd, hpc]
    omega
  | callGo j c hc hpc =>
    have e : ∀ f, tally f (s.workers ++ [{ id := c.capacity + c.thread, st := .idle }])
        = tally f s.workers + f .idle := by
      intro f; simp [tally_append, tally_cons, tally_nil]
    refine ⟨hcap, hfifo, hbound, ?_, ?_, ?_, ?_, hphase, ?_⟩
    · simp only [e, total_set _ _ _ _ _ hc, hwg, pendingAdd, hpc, notDone]
      omega
    · intro t; simp only [e, isBusy]; have := hacct t; omega
    · simp only [e, normalExit]; intro h1; exact hdrained (by omega)
    · simp only [e, flagged]; intro h1; have := hnofail h1; omega
    · intro n hn h1 h2
      simp only [e, busyAny]
      have := hafter n hn h1 h2
      exact ⟨this.1, by omega⟩
  | push t hopen hroom =>
    refine ⟨?_, ?_, ?_, ?_, ?_, ?_, ?_, ?_, ?_⟩
    · exact hcap
    · simp only [← hfifo, List.append_assoc]
    · simp only [List.length_append, List.length_singleton]; omega
    · exact hwg
    · exact hacct
    · intro h1; have := (hdrained h1).1; simp [hopen] at this
    · exact hnofail
    · simpa using hphase
    · intro n hn; have := hphase.2 hopen; simp [this] at hn
  | pushPanic t hclosed => exact inv_crash C s h0
  | handoff i t x rest hst hopen hfull hx =>
    have e := fun f => tally_setState f s.workers i .idle (.busy x) hst
    refine ⟨?_, ?_, ?_, ?_, ?_, ?_, ?_, ?_, ?_⟩
    · exact hcap
    · simp only [← hfifo, List.append_assoc, List.singleton_append, ← hx]
    · have := congrArg List.length hx
      simp only [List.length_append, List.length_singleton, List.length_cons,
        List.length_nil] at this
      simp only; omega
    · simp only [e, hwg, notDone]; omega
    · intro t1
      simp only [e, List.count_append, List.count_singleton, isBusy]
      have := hacct t1
      push_cast
      by_cases hxt : x = t1
      · simp [hxt]; omega
      · have hxt2 : ¬ (x == t1) = true := by simpa using hxt
        simp [hxt, hxt2]; omega
    · simp only [e, normalExit]
      intro h1; have := (hdrained (by omega)).1; simp [hopen] at this
    · simp only [e, flagged]; intro h1; have := hnofail h1; omega
    · simpa using hphase
    · intro n hn; have := hphase.2 hopen; simp [this] at hn
  | recvTask i t rest hst hbuf =>
    have e := fun f => tally_setState f s.workers i .idle (.busy t) hst
    refine ⟨?_, ?_, ?_, ?_, ?_, ?_, ?_, ?_, ?_⟩
    · exact hcap
    · simp only [← hfifo, hbuf, List.append_assoc, List.singleton_append]
    · simp only [hbuf, List.length_cons] at hbound; simp only; omega
    · simp only [e, hwg, notDone]; omega
    · intro t1
      simp only [e, List.count_append, List.count_singleton, isBusy]
      have := hacct t1
      push_cast
      by_cases hxt : t = t1
      · simp [hxt]; omega
      · have hxt2 : ¬ (t == t1) = true := by simpa using hxt
        simp [hxt, hxt2]; omega
    · simp only [e, normalExit]
      intro h1; have := (hdrained (by omega)).2; simp [hbuf] at this
    · simp only [e, flagged]; intro h1; have := hnofail h1; omega
    · simpa using hphase
    · intro n hn h1 h2; have := (hafter n hn h1 h2).1; simp [hbuf] at this
  | recvEnd i hst hbuf hclosed =>
    have e := fun f => tally_setState f s.workers i .idle (.leaving .drained) hst
    refine ⟨?_, ?_, ?_, ?_, ?_, ?_, ?_, ?_, ?_⟩
    · exact hcap
    · exact hfifo
    · exact hbound
    · simp only [e, hwg, notDone]; omega
    · intro t1; simp only [e, isBusy]; have := hacct t1; omega
    · intro _; exact ⟨hclosed, hbuf⟩
    · simp only [e, flagged]; intro h1; have := hnofail h1; omega
    · exact hphase
    · intro n hn h1 h2
      simp only [e, busyAny]
      have := hafter n hn h1 h2
      exact ⟨this.1, by omega⟩
  | ret i t hst =>
    have e := fun f => tally_setState f s.workers i (.busy t) .idle hst
    have nnB1 := tally_nonneg busyAny busyAny_nonneg (setState s.workers i .idle)
    refine ⟨?_, ?_, ?_, ?_, ?_, ?_, ?_, ?_, ?_⟩
    · exact hcap
    · exact hfifo
    · exact hbound
    · simp only [e, hwg, notDone]; omega
    · intro t1
      simp only [e, List.count_append, List.count_singleton, isBusy]
      have := hacct t1
      push_cast
      by_cases hxt : t = t1
      · simp [hxt]; omega
      · have hxt2 : ¬ (t == t1) = true := by simpa using hxt
        simp [hxt, hxt2]; omega
    · simp only [e, normalExit]; intro h1; exact hdrained (by omega)
    · simp only [e, flagged]; intro h1; have := hnofail h1; omega
    · exact hphase
    · intro n hn h1 h2
      have := hafter n hn h1 h2
      rw [e busyAny] at nnB1 ⊢
      simp only [busyAny] at nnB1 ⊢
      exact ⟨this.1, by omega⟩
  | fail i t hst =>
    have e := fun f => tally_setState f s.workers i (.busy t) (.leaving .panicked) hst
    refine ⟨?_, ?_, ?_, ?_, ?_, ?_, ?_, ?_, ?_⟩
    · exact hcap
    · exact hfifo
    · exact hbound
    · simp only [e, hwg, notDone]; omega
    · intro t1
      simp only [e, List.count_append, List.count_singleton, isBusy]
      have := hacct t1
      push_cast
      by_cases hxt : t = t1
      · simp [hxt]; omega
      · have hxt2 : ¬ (t == t1) = true := by simpa using hxt
        simp [hxt, hxt2]; omega
    · simp only [e, normalExit]; intro h1; exact hdrained (by omega)
    · intro h1; simp at h1
    · exact hphase
    · intro n _ _ h2; simp at h2
  | quit i t hst =>
    have e := fun f => tally_setState f s.workers i (.busy t) (.leaving .goexit) hst
    refine ⟨?_, ?_, ?_, ?_, ?_, ?_, ?_, ?_, ?_⟩
    · exact hcap
    · exact hfifo
    · exact hbound
    · simp only [e, hwg, notDone]; omega
    · intro t1
      simp only [e, List.count_append, List.count_singleton, isBusy]
      have := hacct t1
      push_cast
      by_cases hxt : t = t1
      · simp [hxt]; omega
      · have hxt2 : ¬ (t == t1) = true := by simpa using hxt
        simp [hxt, hxt2]; omega
    · simp only [e, normalExit]; intro h1; exact hdrained (by omega)
    · intro h1; simp at h1
    · exact hphase
    · intro n _ _ h2; simp at h2
  | done i p hst hpos =>
    have e := fun f => tally_setState f s.workers i (.leaving p) (.released p) hst
    refine ⟨?_, ?_, ?_, ?_, ?_, ?_, ?_, ?_, ?_⟩
    · exact hcap
    · exact hfifo
    · exact hbound
    · simp only [e, hwg, notDone]; omega
    · intro t1; simp only [e, isBusy]; have := hacct t1; omega
    · simp only [e]; intro h1
      exact hdrained (by cases p <;> simp only [normalExit] at h1 <;> omega)
    · simp only [e]; intro h1; have := hnofail h1
      cases p <;> simp only [flagged] <;> omega
    · exact hphase
    · intro n hn h1 h2
      simp only [e, busyAny]
      have := hafter n hn h1 h2
      exact ⟨this.1, by omega⟩
  | donePanic i p hst hneg => exact inv_crash C s h0
  | dec i p hst =>
    have e := fun f => tally_setState f s.workers i (.released p) (.exited p) hst
    refine ⟨?_, ?_, ?_, ?_, ?_, ?_, ?_, ?_, ?_⟩
    · exact hcap
    · exact hfifo
    · exact hbound
    · simp only [e, hwg, notDone]; omega
    · intro t1; simp only [e, isBusy]; have := hacct t1; omega
    · simp only [e]; intro h1
      exact hdrained (by cases p <;> simp only [normalExit] at h1 <;> omega)
    · simp only [e]; intro h1; have := hnofail h1
      cases p <;> simp only [flagged] <;> omega
    · exact hphase
    · intro n hn h1 h2
      simp only [e, busyAny]
      have := hafter n hn h1 h2
      exact ⟨this.1, by omega⟩
  | close hopen =>
    refine ⟨?_, ?_, ?_, ?_, ?_, ?_, ?_, ?_, ?_⟩
    · exact hcap
    · exact hfifo
    · exact hbound
    · exact hwg
    · exact hacct
    · intro h1; have := (hdrained h1).1; simp [hopen] at this
    · exact hnofail
    · simp
    · intro n hn; simp at hn
  | closePanic hclosed => exact inv_crash C s h0
  | wait hrel hzero =>
    refine ⟨?_, ?_, ?_, ?_, ?_, ?_, ?_, ?_, ?_⟩
    · exact hcap
    · exact hfifo
    · exact hbound
    · exact hwg
    · exact hacct
    · exact hdrained
    · exact hnofail
    · have hc : s.pool.queue.closed = true := by
        by_contra hc
        have := hphase.2 (by simpa using hc)
        simp [this] at hrel
      simp [hc]
    · intro n hn h1 h2
      simp only [Phase.returned.injEq] at hn
      have hl := length_le_tally s.workers
      have hf := hnofail h2
      have hd : tally notDone s.workers = 0 := by omega
      have : 0 < tally normalExit s.workers := by omega
      refine ⟨(hdrained this).2, ?_⟩
      show tally busyAny s.workers = 0
      omega

theorem inv_exec (C : Nat) (acts : List Action) (s s1 : System) (h : Inv C s)
    (he : exec s acts = some s1) : Inv C s1 := by
  induction acts generalizing s with
  | nil => simp only [exec, Option.some.injEq] at he; subst he; exact h
  | cons a as ih =>
    simp only [exec] at he
    cases hs : step s a with
    | none => simp [hs] at he
    | some s2 =>
      simp only [hs, Option.some_bind] at he
      exact ih s2 (inv_step C s s2 a h (step_sound s s2 a hs)) he

/-! ## The counter -/

theorem capInv_start (C : Int) (p : ThreadPool) (h : New C = .done p) : CapInv (start p) := by
  unfold New Chan.make at h
  by_cases hC : C < 0
  · simp [hC] at h
  · simp only [hC, if_false, Outcome.done.injEq] at h
    subst h
    constructor <;> simp [start, tally_nil, total_nil]

/-- A move of a worker that does not end it leaves the counter invariant as it
is. -/
theorem capInv_worker (s : System) (i : Nat) (st0 st : WState) (h : CapInv s)
    (hst : stateOf s i = some st0) (h0 : isExited st0 = 0) (h1 : isExited st = 0)
    (s1 : System) (hw : s1.workers = setState s.workers i st)
    (hc : s1.calls = s.calls) (hp : s1.pool.capacity = s.pool.capacity) : CapInv s1 := by
  obtain ⟨hv, hm, hok⟩ := h
  refine ⟨?_, ?_, ?_⟩
  · rw [hw, hc, hp, tally_setState isExited s.workers i st0 st hst, length_setState, hv]
    omega
  · rw [hw, hc, length_setState]; exact hm
  · rw [hc]; exact hok

theorem capInv_step (s s1 : System) (a : Action) (h : CapInv s) (ht : Trans s a s1)
    (hnn : nonNegSpawn a = true) : CapInv s1 := by
  have h0 := h
  obtain ⟨hv, hm, hok⟩ := h
  cases ht with
  | spawn count =>
    have hc0 : 0 ≤ count := by simpa [nonNegSpawn] using hnn
    refine ⟨?_, ?_, ?_⟩
    · simp only [total_append, total_cons, total_nil, owed, hv]; omega
    · simp only [total_append, total_cons, total_nil, launched]; omega
    · intro c hc
      rcases List.mem_append.1 hc with hc | hc
      · exact hok c hc
      · simp only [List.mem_singleton] at hc
        subst hc
        exact ⟨hc0, le_refl _, by simp only; omega, by simp⟩
  | callInc j c hc hpc hle =>
    obtain ⟨o1, o2, o3, o4⟩ := hok c (List.getElem?_mem hc)
    refine ⟨?_, ?_, ?_⟩
    · simp only [total_set _ _ _ _ _ hc, owed, hpc, hv]; omega
    · simp only [total_set _ _ _ _ _ hc, launched]; omega
    · intro c1 hc1
      rcases List.mem_or_eq_of_mem_set hc1 with hc1 | hc1
      · exact hok c1 hc1
      · subst hc1; exact ⟨o1, o2, o3, fun _ => hle⟩
  | callEnd j c hc hpc hgt =>
    obtain ⟨o1, o2, o3, o4⟩ := hok c (List.getElem?_mem hc)
    refine ⟨?_, ?_, ?_⟩
    · simp only [total_eraseIdx _ _ _ _ hc, owed, hpc, hv]; omega
    · simp only [total_eraseIdx _ _ _ _ hc, launched]; omega
    · intro c1 hc1
      exact hok c1 (List.mem_of_mem_eraseIdx hc1)
  | callAdd j c hc hpc =>
    obtain ⟨o1, o2, o3, o4⟩ := hok c (List.getElem?_mem hc)
    refine ⟨?_, ?_, ?_⟩
    · simp only [total_set _ _ _ _ _ hc, owed, hpc, hv]; omega
    · simp only [total_set _ _ _ _ _ hc, launched]; omega
    · intro c1 hc1
      rcases List.mem_or_eq_of_mem_set hc1 with hc1 | hc1
      · exact hok c1 hc1
      · subst hc1; exact ⟨o1, o2, o3, fun _ => o4 (by simp [hpc])⟩
  | callGo j c hc hpc =>
    obtain ⟨o1, o2, o3, o4⟩ := hok c (List.getElem?_mem hc)
    have o5 := o4 (by simp [hpc])
    refine ⟨?_, ?_, ?_⟩
    · simp only [total_set _ _ _ _ _ hc, owed, hpc, hv, tally_append, tally_cons, tally_nil,
        isExited, List.length_append, List.length_singleton]
      push_cast
      omega
    · simp only [total_set _ _ _ _ _ hc, launched, List.length_append, List.length_singleton]
      push_cast
      omega
    · intro c1 hc1
      rcases List.mem_or_eq_of_mem_set hc1 with hc1 | hc1
      · exact hok c1 hc1
      · subst hc1; exact ⟨o1, by simp only; omega, by simp only; omega, by simp⟩
  | push t hopen hroom => exact ⟨hv, hm, hok⟩
  | pushPanic t hclosed => exact ⟨hv, hm, hok⟩
  | handoff i t x rest hst hopen hfull hx =>
    exact capInv_worker s i .idle (.busy x) h0 hst rfl rfl _ rfl rfl rfl
  | recvTask i t rest hst hbuf =>
    exact capInv_worker s i .idle (.busy t) h0 hst rfl rfl _ rfl rfl rfl
  | recvEnd i hst hbuf hclosed =>
    exact capInv_worker s i .idle (.leaving .drained) h0 hst rfl rfl _ rfl rfl rfl
  | ret i t hst =>
    exact capInv_worker s i (.busy t) .idle h0 hst rfl rfl _ rfl rfl rfl
  | fail i t hst =>
    exact capInv_worker s i (.busy t) (.leaving .panicked) h0 hst rfl rfl _ rfl rfl rfl
  | quit i t hst =>
    exact capInv_worker s i (.busy t) (.leaving .goexit) h0 hst rfl rfl _ rfl rfl rfl
  | done i p hst hpos =>
    exact capInv_worker s i (.leaving p) (.released p) h0 hst rfl rfl _ rfl rfl rfl
  | donePanic i p hst hneg => exact ⟨hv, hm, hok⟩
  | dec i p hst =>
    refine ⟨?_, ?_, hok⟩
    · simp only [tally_setState isExited s.workers i (.released p) (.exited p) hst,
        length_setState, hv, isExited]
      omega
    · simp only [length_setState]; exact hm
  | close hopen => exact ⟨hv, hm, hok⟩
  | closePanic hclosed => exact ⟨hv, hm, hok⟩
  | wait hrel hzero => exact ⟨hv, hm, hok⟩

theorem capInv_exec (acts : List Action) (s s1 : System) (h : CapInv s)
    (he : exec s acts = some s1) (hnn : nonNegSpawns acts = true) : CapInv s1 := by
  induction acts generalizing s with
  | nil => simp only [exec, Option.some.injEq] at he; subst he; exact h
  | cons a as ih =>
    simp only [exec] at he
    simp only [nonNegSpawns, List.all_cons, Bool.and_eq_true] at hnn
    cases hs : step s a with
    | none => simp [hs] at he
    | some s2 =>
      simp only [hs, Option.some_bind] at he
      exact ih s2 (capInv_step s s2 a h (step_sound s s2 a hs) hnn.1) he hnn.2

/-- The counter is never negative while the `Spawn` calls have non-negative
counts, also in the middle of a call. -/
theorem capInv_nonneg (s : System) (h : CapInv s) : 0 ≤ s.pool.capacity := by
  obtain ⟨hv, hm, hok⟩ := h
  have h1 := tally_isExited_le_length s.workers
  have h2 := total_le owed launched s.calls fun c _ => owed_le_launched c
  omega

/-! ## The function `Spawn` and the actions of a call -/

theorem spawnLoop_frame (c : Int) (n : Nat) (th : Int) (s : System) :
    (spawnLoop c n th s).pool.queue = s.pool.queue ∧
    (spawnLoop c n th s).calls = s.calls ∧
    (spawnLoop c n th s).pushed = s.pushed ∧
    (spawnLoop c n th s).dequeued = s.dequeued ∧
    (spawnLoop c n th s).processed = s.processed ∧
    (spawnLoop c n th s).failed = s.failed ∧
    (spawnLoop c n th s).release = s.release ∧
    (spawnLoop c n th s).crashed = s.crashed := by
  induction n generalizing th s with
  | zero => simp [spawnLoop]
  | succ n ih =>
    have := ih (th + 1) (spawnThread s (c + th))
    simpa [spawnLoop, spawnThread] using this

theorem spawnLoop_counters (c : Int) (n : Nat) (th : Int) (s : System) :
    (spawnLoop c n th s).pool.threads = s.pool.threads + n ∧
    (spawnLoop c n th s).pool.capacity = s.pool.capacity + n := by
  induction n generalizing th s with
  | zero => simp [spawnLoop]
  | succ n ih =>
    obtain ⟨h1, h2⟩ := ih (th + 1) (spawnThread s (c + th))
    simp only [spawnLoop]
    rw [h1, h2]
    simp [spawnThread]
    omega

theorem spawnLoop_workers (c : Int) (n : Nat) (th : Int) (s : System) :
    (spawnLoop c n th s).workers
      = s.workers ++ (List.range n).map fun j => { id := c + th + (j : Int), st := .idle } := by
  induction n generalizing th s with
  | zero => simp [spawnLoop]
  | succ n ih =>
    simp only [spawnLoop]
    rw [ih (th + 1) (spawnThread s (c + th)), List.range_succ_eq_map]
    simp only [spawnThread, List.append_assoc, List.singleton_append, List.map_cons,
      List.map_map, Nat.cast_zero, add_zero]
    congr 2
    apply List.map_congr_left
    intro j _
    simp only [Function.comp, Nat.cast_succ, Worker.mk.injEq, and_true]
    ring

/-- The state after an uninterrupted `Spawn(k)`, field by field. -/
theorem Spawn_eq (s : System) (k : Int) :
    Spawn s k =
      { s with
        pool := { s.pool with
          capacity := s.pool.capacity + k.toNat + k
          threads := s.pool.threads + k.toNat }
        workers := s.workers ++ (List.range k.toNat).map fun j =>
          { id := s.pool.capacity + 1 + (j : Int), st := .idle } } := by
  obtain ⟨f1, f2, f3, f4, f5, f6, f7, f8⟩ := spawnLoop_frame s.pool.capacity k.toNat 1 s
  obtain ⟨c1, c2⟩ := spawnLoop_counters s.pool.capacity k.toNat 1 s
  have w := spawnLoop_workers s.pool.capacity k.toNat 1 s
  simp only [Spawn, System.mk.injEq, ThreadPool.mk.injEq]
  exact ⟨⟨f1, c1, by rw [c2]⟩, w, f2, f3, f4, f5, f6, f7, f8⟩

theorem Spawn_first_idle (s : System) (k : Int) (hw : s.workers = []) (hk : 1 ≤ k) :
    stateOf (Spawn s k) 0 = some .idle := by
  obtain ⟨n, hn⟩ : ∃ n, k.toNat = n + 1 := ⟨k.toNat - 1, by omega⟩
  rw [Spawn_eq]
  simp [stateOf, hw, hn, List.range_succ_eq_map]

theorem exec_append (s : System) (as bs : List Action) :
    exec s (as ++ bs) = (exec s as).bind fun s1 => exec s1 bs := by
  induction as generalizing s with
  | nil => simp [exec]
  | cons a as ih =>
    simp only [List.cons_append, exec]
    cases step s a with
    | none => simp
    | some s2 => simp [ih]

theorem set_last {α : Type} (cs : List α) (c d : α) :
    (cs ++ [c]).set cs.length d = cs ++ [d] := by
  induction cs with
  | nil => simp
  | cons x cs ih => simp [ih]

theorem erase_last {α : Type} (cs : List α) (c : α) :
    (cs ++ [c]).eraseIdx cs.length = cs := by
  induction cs with
  | nil => simp
  | cons x cs ih => simp [ih]

/-- One iteration of the loop of a call of `Spawn` that is the last of the
calls in progress and is not interrupted: three actions. -/
theorem spawnIter_run (cap0 count : Int) (cs : List Call) (th : Int) (s : System)
    (hcr : s.crashed = false)
    (hcalls : s.calls = cs ++ [{ capacity := cap0, count := count, thread := th, pc := .loop }])
    (hle : th ≤ count) :
    exec s (List.replicate 3 (.spawnStep cs.length)) = some
      { s with
        pool := { s.pool with
          capacity := s.pool.capacity + 1
          threads := s.pool.threads + 1 }
        workers := s.workers ++ [{ id := cap0 + th, st := .idle }]
        calls := cs ++ [{ capacity := cap0, count := count, thread := th + 1, pc := .loop }] } := by
  simp [List.replicate, exec, step, hcr, hcalls, List.getElem?_concat_length, spawnStep, hle,
    set_last]

/-- The actions of a call of `Spawn` that is the last of the calls in progress,
stands at the loop test with `n` iterations left, and is not interrupted. -/
theorem spawnSteps_run (cap0 count : Int) (cs : List Call) (n : Nat) (th : Int) (s : System)
    (hcr : s.crashed = false)
    (hcalls : s.calls = cs ++ [{ capacity := cap0, count := count, thread := th, pc := .loop }])
    (hn : n = (count + 1 - th).toNat) :
    exec s (List.replicate (3 * n + 1) (.spawnStep cs.length)) = some
      { s with
        pool := { s.pool with
          capacity := s.pool.capacity + n + count
          threads := s.pool.threads + n }
        workers := s.workers ++ (List.range n).map fun j =>
          { id := cap0 + th + (j : Int), st := .idle }
        calls := cs } := by
  induction n generalizing th s with
  | zero =>
    have hgt : ¬ th ≤ count := by omega
    simp [exec, step, hcr, hcalls, List.getElem?_concat_length, spawnStep, hgt, erase_last]
  | succ n ih =>
    have hle : th ≤ count := by omega
    have e : 3 * (n + 1) + 1 = 3 + (3 * n + 1) := by ring
    rw [e, List.replicate_add, exec_append, spawnIter_run cap0 count cs th s hcr hcalls hle,
      Option.some_bind]
    rw [ih (th + 1)
      { s with
        pool := { s.pool with
          capacity := s.pool.capacity + 1
          threads := s.pool.threads + 1 }
        workers := s.workers ++ [{ id := cap0 + th, st := .idle }]
        calls := cs ++ [{ capacity := cap0, count := count, thread := th + 1, pc := .loop }] }
      hcr rfl (by omega)]
    simp only [Option.some.injEq, System.mk.injEq, ThreadPool.mk.injEq, true_and, and_true]
    refine ⟨⟨by push_cast; ring, by push_cast; ring⟩, ?_⟩
    rw [List.range_succ_eq_map]
    simp only [List.append_assoc, List.singleton_append, List.map_cons, List.map_map,
      Nat.cast_zero, add_zero]
    congr 2
    apply List.map_congr_left
    intro j _
    simp only [Function.comp, Nat.cast_succ, Worker.mk.injEq, and_true]
    ring

/-- A call `Spawn(count)` that nothing interrupts takes the program to the
state computed by the function `Spawn`. -/
theorem Spawn_as_steps (s : System) (count : Int) (hcr : s.crashed = false) :
    exec s (spawnCall s.calls.length count) = some (Spawn s count) := by
  have h1 : exec s [.spawn count] = some
      { s with calls := s.calls ++ [{ capacity := s.pool.capacity, count := count,
                                      thread := 1, pc := .loop }] } := by
    simp [exec, step, hcr]
  have h2 : spawnCall s.calls.length count = [.spawn count] ++
      List.replicate (3 * count.toNat + 1) (.spawnStep s.calls.length) := rfl
  rw [h2, exec_append, h1, Option.some_bind]
  rw [spawnSteps_run s.pool.capacity count s.calls count.toNat 1
    { s with calls := s.calls ++ [{ capacity := s.pool.capacity, count := count,
                                    thread := 1, pc := .loop }] } hcr rfl (by simp)]
  rw [Spawn_eq]

/-! ## Runs without `Spawn` -/

theorem noSpawn_step (s s1 : System) (a : Action)
    (hw : s.workers = [] ∧ s.calls = [] ∧ s.dequeued = [])
    (ht : Trans s a s1) (hns : notSpawn a = true) :
    s1.workers = [] ∧ s1.calls = [] ∧ s1.dequeued = [] := by
  have hnone : ∀ i, stateOf s i = none := by intro i; simp [stateOf, hw.1]
  have hcnone : ∀ j : Nat, s.calls[j]? = none := by intro j; simp [hw.2.1]
  cases ht with
  | spawn count => simp [notSpawn] at hns
  | callInc j c hc hpc hle => rw [hcnone j] at hc; simp at hc
  | callEnd j c hc hpc hgt => rw [hcnone j] at hc; simp at hc
  | callAdd j c hc hpc => rw [hcnone j] at hc; simp at hc
  | callGo j c hc hpc => rw [hcnone j] at hc; simp at hc
  | push t hopen hroom => exact hw
  | pushPanic t hclosed => exact hw
  | handoff i t x rest hst hopen hfull hx => rw [hnone i] at hst; simp at hst
  | recvTask i t rest hst hbuf => rw [hnone i] at hst; simp at hst
  | recvEnd i hst hbuf hclosed => rw [hnone i] at hst; simp at hst
  | ret i t hst => rw [hnone i] at hst; simp at hst
  | fail i t hst => rw [hnone i] at hst; simp at hst
  | quit i t hst => rw [hnone i] at hst; simp at hst
  | done i p hst hpos => rw [hnone i] at hst; simp at hst
  | donePanic i p hst hneg => exact hw
  | dec i p hst => rw [hnone i] at hst; simp at hst
  | close hopen => exact hw
  | closePanic hclosed => exact hw
  | wait hrel hzero => exact hw

theorem noSpawn_exec (acts : List Action) (s s1 : System)
    (hw : s.workers = [] ∧ s.calls = [] ∧ s.dequeued = []) (he : exec s acts = some s1)
    (hns : noSpawn acts = true) : s1.workers = [] ∧ s1.calls = [] ∧ s1.dequeued = [] := by
  induction acts generalizing s with
  | nil => simp only [exec, Option.some.injEq] at he; subst he; exact hw
  | cons a as ih =>
    simp only [exec] at he
    simp only [noSpawn, List.all_cons, Bool.and_eq_true] at hns
    cases hs : step s a with
    | none => simp [hs] at he
    | some s2 =>
      simp only [hs, Option.some_bind] at he
      exact ih s2 (noSpawn_step s s2 a hw (step_sound s s2 a hs) hns.1) he hns.2

/-! ## After `Release` -/

/-- State facts when `Release` has returned with at least one worker started
and no `Process` has ended without returning: the buffer is empty, no worker
is inside `Process`, and every task has been received and processed as often
as it was pushed. -/
theorem released_all_processed (C : Nat) (s : System) (n : Nat) (hinv : Inv C s)
    (hrel : s.release = .returned n) (hn : 1 ≤ n) (hfail : s.failed = []) :
    s.pool.queue.buf = [] ∧ tally busyAny s.workers = 0 ∧
    ∀ t, s.processed.count t = s.pushed.count t := by
  obtain ⟨hbuf, hbusy⟩ := hinv.after n hrel hn hfail
  refine ⟨hbuf, hbusy, ?_⟩
  intro t
  have h1 := hinv.acct t
  have h2 := tally_le (isBusy t) busyAny (isBusy_le_busyAny t) s.workers
  have h3 := tally_nonneg (isBusy t) (isBusy_nonneg t) s.workers
  have h4 := hinv.fifo
  rw [hbuf, List.append_nil] at h4
  rw [hfail, h4] at h1
  simp only [List.count_nil, Nat.cast_zero, add_zero] at h1
  omega

/-! ## The claims -/

/-- C10: in every state reached from `New` by a schedule whose `Spawn` calls have
non-negative counts, and in which no call of `Spawn` is in progress,
`GetCapacity()` is twice the number of workers started minus the number of
workers exited; a call `Spawn(k)` on the fresh pool ends in the state of the
function `Spawn`, where the value is `2 * k`; and once all the workers have
exited the value is their number. -/
theorem C10_counter_counts_twice (C : Int) (p : ThreadPool) (acts : List Action) (s : System)
    (hnew : New C = .done p) (hexec : exec (start p) acts = some s)
    (hnn : nonNegSpawns acts = true) (hcalls : s.calls = []) :
    GetCapacity s.pool = 2 * (started s : Int) - (exited s : Int) ∧
    (∀ k : Int, 0 ≤ k →
      exec (start p) (spawnCall 0 k) = some (Spawn (start p) k) ∧
      GetCapacity (Spawn (start p) k).pool = 2 * k) ∧
    (exited s = started s → GetCapacity s.pool = (started s : Int)) := by
  have h := capInv_exec acts (start p) s (capInv_start C p hnew) hexec hnn
  have main : GetCapacity s.pool = 2 * (started s : Int) - (exited s : Int) := by
    have hv := h.value
    rw [hcalls, total_nil] at hv
    rw [exited_eq_tally]
    simp only [GetCapacity, started, hv]
    omega
  refine ⟨main, ?_, ?_⟩
  · intro k hk
    refine ⟨Spawn_as_steps (start p) k rfl, ?_⟩
    have h0 := (capInv_start C p hnew).value
    have h1 : (start p).pool.capacity = 0 := by
      simpa [start, tally_nil, total_nil] using h0
    have h2 := Int.toNat_of_nonneg hk
    rw [Spawn_eq]
    simp only [GetCapacity]
    omega
  · intro he
    rw [main, he]
    ring

/-- Instance of C10 on `fullRun`: two workers started, both exited, counter 2. -/
theorem C10_counter_counts_twice_witness :
    New 1 = .done pool1 ∧ exec (start pool1) fullRun = some fullRunEnd ∧
    nonNegSpawns fullRun = true ∧ fullRunEnd.calls = [] ∧
    (GetCapacity fullRunEnd.pool = 2 * (started fullRunEnd : Int) - (exited fullRunEnd : Int) ∧
      (∀ k : Int, 0 ≤ k →
        exec (start pool1) (spawnCall 0 k) = some (Spawn (start pool1) k) ∧
        GetCapacity (Spawn (start pool1) k).pool = 2 * k) ∧
      (exited fullRunEnd = started fullRunEnd →
        GetCapacity fullRunEnd.pool = (started fullRunEnd : Int))) :=
  ⟨by decide, by decide, by decide, by decide,
    C10_counter_counts_twice 1 pool1 fullRun fullRunEnd (by decide) (by decide) (by decide)
      (by decide)⟩

/-- C5: in every state reached from `New` by `Spawn` calls with non-negative
counts, pushes, worker moves and `Release`, also in the middle of a call of
`Spawn`, `GetCapacity()` is not negative. -/
theorem C5_counter_never_negative (C : Int) (p : ThreadPool) (acts : List Action) (s : System)
    (hnew : New C = .done p) (hexec : exec (start p) acts = some s)
    (hnn : nonNegSpawns acts = true) :
    0 ≤ GetCapacity s.pool :=
  capInv_nonneg s (capInv_exec acts (start p) s (capInv_start C p hnew) hexec hnn)

/-- Instance of C5 on `midRun`, which stops inside a call of `Spawn`. -/
theorem C5_counter_never_negative_witness :
    New 1 = .done pool1 ∧ exec (start pool1) midRun = some midRunEnd ∧
    nonNegSpawns midRun = true ∧ 0 ≤ GetCapacity midRunEnd.pool :=
  ⟨by decide, by decide, by decide,
    C5_counter_never_negative 1 pool1 midRun midRunEnd (by decide) (by decide) (by decide)⟩

/-- C8: in every state reached from `New`, the tasks received by the workers, in
the order of the receives, followed by the tasks still buffered, are the tasks
pushed, in the order of the pushes. -/
theorem C8_fifo_delivery (C : Int) (p : ThreadPool) (acts : List Action) (s : System)
    (hnew : New C = .done p) (hexec : exec (start p) acts = some s) :
    s.dequeued ++ s.pool.queue.buf = s.pushed :=
  (inv_exec C.toNat acts (start p) s (inv_start C p hnew) hexec).fifo

/-- Instance of C8 on `midRun`: task 7 received, task 8 buffered. -/
theorem C8_fifo_delivery_witness :
    New 1 = .done pool1 ∧ exec (start pool1) midRun = some midRunEnd ∧
    midRunEnd.dequeued ++ midRunEnd.pool.queue.buf = midRunEnd.pushed :=
  ⟨by decide, by decide, C8_fifo_delivery 1 pool1 midRun midRunEnd (by decide) (by decide)⟩

/-- C9: in every state reached from `New(C)` the queue buffers at most `C`
tasks; and a step in which a `Push` completes either finds fewer than `C` tasks
buffered and leaves the receive history alone, or finds the buffer full and is
at the same time the receive of a task by a worker. -/
theorem C9_queue_bounded (C : Int) (p : ThreadPool) (acts : List Action) (s : System)
    (hnew : New C = .done p) (hexec : exec (start p) acts = some s) :
    0 ≤ C ∧ (s.pool.queue.buf.length : Int) ≤ C ∧
    ∀ a s1, step s a = some s1 → s1.pushed ≠ s.pushed →
      ((s.pool.queue.buf.length : Int) < C ∧ s1.dequeued = s.dequeued) ∨
      ((s.pool.queue.buf.length : Int) = C ∧ ∃ x, s1.dequeued = s.dequeued ++ [x]) := by
  have hC := new_nonneg C p hnew
  have hinv := inv_exec C.toNat acts (start p) s (inv_start C p hnew) hexec
  have hcap := hinv.cap
  have hb := hinv.bound
  refine ⟨hC, by omega, ?_⟩
  intro a s1 hs hne
  have ht := step_sound s s1 a hs
  cases ht with
  | spawn count => exact absurd rfl hne
  | callInc j c hc hpc hle => exact absurd rfl hne
  | callEnd j c hc hpc hgt => exact absurd rfl hne
  | callAdd j c hc hpc => exact absurd rfl hne
  | callGo j c hc hpc => exact absurd rfl hne
  | push t hopen hroom => left; exact ⟨by omega, rfl⟩
  | pushPanic t hclosed => exact absurd rfl hne
  | handoff i t x rest hst hopen hfull hx => right; exact ⟨by omega, x, rfl⟩
  | recvTask i t rest hst hbuf => exact absurd rfl hne
  | recvEnd i hst hbuf hclosed => exact absurd rfl hne
  | ret i t hst => exact absurd rfl hne
  | fail i t hst => exact absurd rfl hne
  | quit i t hst => exact absurd rfl hne
  | done i p hst hpos => exact absurd rfl hne
  | donePanic i p hst hneg => exact absurd rfl hne
  | dec i p hst => exact absurd rfl hne
  | close hopen => exact absurd rfl hne
  | closePanic hclosed => exact absurd rfl hne
  | wait hrel hzero => exact absurd rfl hne

/-- Instance of C9 on `midRun`, whose last state has the one-slot buffer full. -/
theorem C9_queue_bounded_witness :
    New 1 = .done pool1 ∧ exec (start pool1) midRun = some midRunEnd ∧
    ((0 : Int) ≤ 1 ∧ (midRunEnd.pool.queue.buf.length : Int) ≤ 1 ∧
      ∀ a s1, step midRunEnd a = some s1 → s1.pushed ≠ midRunEnd.pushed →
        ((midRunEnd.pool.queue.buf.length : Int) < 1 ∧ s1.dequeued = midRunEnd.dequeued) ∨
        ((midRunEnd.pool.queue.buf.length : Int) = 1 ∧
          ∃ x, s1.dequeued = midRunEnd.dequeued ++ [x])) :=
  ⟨by decide, by decide, C9_queue_bounded 1 pool1 midRun midRunEnd (by decide) (by decide)⟩

/-- C7: in every state reached from `New` in which `Release` has closed the
queue, `Push` of any task panics: the send neither completes nor parks, no
hand-over to a worker is possible, and the panic leaves the queue and the
record of the pushed tasks as they were. -/
theorem C7_push_after_release_panics (C : Int) (p : ThreadPool) (acts : List Action)
    (s : System) (t : Task)
    (hnew : New C = .done p) (hexec : exec (start p) acts = some s)
    (hrel : s.release ≠ .notCalled) :
    Push s.pool t = .panic ∧
    (s.crashed = false → step s (.push t) = some (crash s)) ∧
    (∀ i, step s (.handoff i t) = none) ∧
    (crash s).crashed = true ∧ (crash s).pool = s.pool ∧ (crash s).pushed = s.pushed := by
  have hinv := inv_exec C.toNat acts (start p) s (inv_start C p hnew) hexec
  have hc : s.pool.queue.closed = true := by
    by_contra hc
    exact hrel (hinv.phase.2 (by simpa using hc))
  have hp : Push s.pool t = .panic := by simp [Push, Chan.send, hc]
  refine ⟨hp, ?_, ?_, rfl, rfl, rfl⟩
  · intro hcr
    simp [step, hcr, hp]
  · intro i
    unfold step
    split
    · rfl
    · simp only
      split
      · simp [hc]
      · rfl

/-- Instance of C7 on `fullRun`, after which `Release` has returned. -/
theorem C7_push_after_release_panics_witness :
    New 1 = .done pool1 ∧ exec (start pool1) fullRun = some fullRunEnd ∧
    fullRunEnd.release ≠ .notCalled ∧
    (Push fullRunEnd.pool 9 = .panic ∧
      (fullRunEnd.crashed = false → step fullRunEnd (.push 9) = some (crash fullRunEnd)) ∧
      (∀ i, step fullRunEnd (.handoff i 9) = none) ∧
      (crash fullRunEnd).crashed = true ∧ (crash fullRunEnd).pool = fullRunEnd.pool ∧
      (crash fullRunEnd).pushed = fullRunEnd.pushed) :=
  ⟨by decide, by decide, by decide,
    C7_push_after_release_panics 1 pool1 fullRun fullRunEnd 9 (by decide) (by decide)
      (by decide)⟩

/-- C1 (the code departs from it): on the pool fresh from `New(0)`, `Spawn(1)`
starts one worker, none has exited, and `GetCapacity()` right after is 2, not
the one live worker. -/
theorem C1_spawn_one_reads_two :
    New 0 = .done pool0 ∧ exec (start pool0) (spawnCall 0 1) = some spawnedOne ∧
    Spawn (start pool0) 1 = spawnedOne ∧
    started spawnedOne = 1 ∧ exited spawnedOne = 0 ∧
    GetCapacity spawnedOne.pool = 2 ∧
    GetCapacity spawnedOne.pool ≠ (started spawnedOne : Int) - (exited spawnedOne : Int) := by
  decide

/-- C4 (the code departs from it): on `New(0)`, after `Spawn(1)` and a `Release()`
that has returned, `GetCapacity()` is 2 while the worker has not run its
decrement yet, and 1 once the worker has exited; it is never 0. -/
theorem C4_released_counter_not_zero :
    New 0 = .done pool0 ∧
    exec (start pool0) (spawnCall 0 1 ++ [.close, .recv 0, .done 0, .wait])
      = some releasedEarly ∧
    releasedEarly.release = .returned 1 ∧ GetCapacity releasedEarly.pool = 2 ∧
    exec releasedEarly [.dec 0] = some releasedLate ∧
    releasedLate.release = .returned 1 ∧ exited releasedLate = started releasedLate ∧
    releasedLate.pool.queue.buf = [] ∧ GetCapacity releasedLate.pool = 1 := by
  decide

/-- C2 as stated fails: on `New(1)` with no worker, `Push(7)` then `Release()`
returns with task 7 still buffered and not processed; with one worker,
`Release()` can return after `Process` of task 7 has panicked, before the
program dies; and on `New(5)` with one worker, if `Process` of task 7 calls
`runtime.Goexit`, `Release()` returns with task 8 still buffered, nothing has
panicked and the program lives on. -/
theorem C2_counterexample :
    (New 1 = .done pool1 ∧
      exec (start pool1) [.push 7, .close, .wait] = some releasedUnserved ∧
      releasedUnserved.release = .returned 0 ∧ releasedUnserved.pushed = [7] ∧
      releasedUnserved.processed = [] ∧ releasedUnserved.pool.queue.buf = [7]) ∧
    (exec (start pool1)
        (spawnCall 0 1 ++ [.push 7, .recv 0, .fail 0, .done 0, .close, .wait])
        = some releasedPanicked ∧
      releasedPanicked.release = .returned 1 ∧ releasedPanicked.pushed = [7] ∧
      releasedPanicked.processed = []) ∧
    (New 5 = .done pool5 ∧
      exec (start pool5)
        (spawnCall 0 1 ++ [.push 7, .push 8, .recv 0, .quit 0, .done 0, .close, .wait])
        = some releasedQuit ∧
      releasedQuit.release = .returned 1 ∧ releasedQuit.pushed = [7, 8] ∧
      releasedQuit.processed = [] ∧ releasedQuit.pool.queue.buf = [8] ∧
      (exec releasedQuit [.dec 0]).map System.crashed = some false) := by
  decide

/-- C2, amended: in every state reached from `New` in which `Release` has
returned, at least one worker had been started by then, and no `Process` has
ended without returning (by a panic or by `runtime.Goexit`), no task is left in
the queue, no worker is inside `Process`, and the tasks processed are the tasks
pushed.  And in every state reached without any `Spawn`, with the program alive
and `Release` not called yet, `Release` runs to its return at once, and then
every task pushed is still buffered and none has been processed. -/
theorem C2_release_drains (C : Int) (p : ThreadPool) (acts : List Action) (s : System)
    (hnew : New C = .done p) (hexec : exec (start p) acts = some s) :
    (∀ n, s.release = .returned n → 1 ≤ n → s.failed = [] →
      s.pool.queue.buf = [] ∧ (∀ w ∈ s.workers, ∀ t, w.st ≠ .busy t) ∧
      s.processed.Perm s.pushed) ∧
    (noSpawn acts = true → s.release = .notCalled → s.crashed = false →
      ∃ s1, exec s [.close, .wait] = some s1 ∧ s1.release = .returned 0 ∧
        s1.pool.queue.buf = s.pushed ∧ s1.pushed = s.pushed ∧ s1.processed = []) := by
  have hinv := inv_exec C.toNat acts (start p) s (inv_start C p hnew) hexec
  refine ⟨?_, ?_⟩
  · intro n hrel hn hfail
    obtain ⟨h1, h2, h3⟩ := released_all_processed C.toNat s n hinv hrel hn hfail
    exact ⟨h1, tally_busyAny_zero s.workers h2, List.perm_iff_count.2 h3⟩
  · intro hns hrel hcr
    obtain ⟨hw, hcs, hd⟩ := noSpawn_exec acts (start p) s ⟨rfl, rfl, rfl⟩ hexec hns
    have hopen := hinv.phase.1 hrel
    have hfifo := hinv.fifo
    rw [hd, List.nil_append] at hfifo
    have hthreads : s.pool.threads = 0 := by
      have := hinv.wg
      rw [hw, hcs, tally_nil, total_nil] at this
      omega
    have hproc : s.processed = [] := by
      apply List.eq_nil_iff_forall_not_mem.2
      intro t ht
      have h1 := hinv.acct t
      have h2 : 0 < s.processed.count t := List.count_pos_iff.2 ht
      rw [hd, hw, tally_nil] at h1
      simp only [List.count_nil, Nat.cast_zero, add_zero] at h1
      omega
    refine ⟨{ s with
      pool := { s.pool with queue := { s.pool.queue with closed := true } }
      release := .returned s.workers.length }, ?_, ?_, hfifo, rfl, hproc⟩
    · simp [exec, step, hcr, Chan.close, hopen, hthreads]
    · simp [hw]

/-- Instances of the amended C2: on `fullRun`, in whose last state `Release` has
returned with two workers started, and on the run `New(1); Push(7)` without
`Spawn`, from which `Release` returns at once with task 7 buffered. -/
theorem C2_release_drains_witness :
    (New 1 = .done pool1 ∧ exec (start pool1) fullRun = some fullRunEnd ∧
      fullRunEnd.release = .returned 2 ∧ fullRunEnd.failed = [] ∧
      (fullRunEnd.pool.queue.buf = [] ∧ (∀ w ∈ fullRunEnd.workers, ∀ t, w.st ≠ .busy t) ∧
        fullRunEnd.processed.Perm fullRunEnd.pushed)) ∧
    (exec (start pool1) [.push 7] = some pushedOne ∧ noSpawn [.push 7] = true ∧
      pushedOne.release = .notCalled ∧ pushedOne.crashed = false ∧
      ∃ s1, exec pushedOne [.close, .wait] = some s1 ∧ s1.release = .returned 0 ∧
        s1.pool.queue.buf = pushedOne.pushed ∧ s1.pushed = pushedOne.pushed ∧
        s1.processed = []) :=
  ⟨⟨by decide, by decide, by decide, by decide,
      (C2_release_drains 1 pool1 fullRun fullRunEnd (by decide) (by decide)).1 2
        (by decide) (by decide) (by decide)⟩,
    by decide, by decide, by decide, by decide,
      (C2_release_drains 1 pool1 [.push 7] pushedOne (by decide) (by decide)).2
        (by decide) (by decide) (by decide)⟩

/-- C3: for every queue size `C` and every `N`, in a state reached from `New(C)`
in which `N` tasks have been pushed, `Release` has returned with at least one
worker started, and no `Process` has ended without returning (by a panic or by
`runtime.Goexit`), every task has been processed exactly as many times as it
was pushed, `N` executions in all. -/
theorem C3_each_task_processed_once (C : Int) (p : ThreadPool) (acts : List Action)
    (s : System) (n N : Nat) (hnew : New C = .done p) (hexec : exec (start p) acts = some s)
    (hpushed : s.pushed.length = N) (hrel : s.release = .returned n) (hn : 1 ≤ n)
    (hfail : s.failed = []) :
    (∀ t, s.processed.count t = s.pushed.count t) ∧ s.processed.length = N := by
  have hinv := inv_exec C.toNat acts (start p) s (inv_start C p hnew) hexec
  obtain ⟨_, _, h3⟩ := released_all_processed C.toNat s n hinv hrel hn hfail
  exact ⟨h3, by rw [← hpushed]; exact (List.perm_iff_count.2 h3).length_eq⟩

set_option maxRecDepth 100000 in
/-- Instance of C3: queue size 5, three workers, 100 tasks, 100 executions. -/
theorem C3_each_task_processed_once_witness :
    New 5 = .done pool5 ∧ exec (start pool5) (countingRun 100) = some (countingEnd 100) ∧
    (countingEnd 100).pushed.length = 100 ∧ (countingEnd 100).release = .returned 3 ∧
    1 ≤ 3 ∧ (countingEnd 100).failed = [] ∧
    ((∀ t, (countingEnd 100).processed.count t = (countingEnd 100).pushed.count t) ∧
      (countingEnd 100).processed.length = 100) :=
  ⟨by decide, by decide, by decide, by decide, by decide, by decide,
    C3_each_task_processed_once 5 pool5 (countingRun 100) (countingEnd 100) 3 100
      (by decide) (by decide) (by decide) (by decide) (by decide) (by decide)⟩

/-- C6 as stated fails: on the pool of `New(1)`, with no `Spawn` ever called,
the first `Push` completes, the task going to the buffer. -/
theorem C6_counterexample :
    New 1 = .done pool1 ∧ Push pool1 7 ≠ .blocked ∧
    exec (start pool1) [.push 7] = some pushedOne ∧
    pushedOne.pushed = [7] ∧ pushedOne.workers = [] ∧ pushedOne.crashed = false := by
  decide

/-- C6, amended: on a pool of `New(C)` on which `Spawn` has never been called
there is no worker and at most `C` pushes have completed; while fewer than `C`
have, a `Push` completes by buffering; the `Push` that finds `C` tasks buffered
parks and no step completes it, and it can complete after a `Spawn(k)` with
`1 ≤ k`, handed to the first worker. -/
theorem C6_push_blocks_on_full_queue (C : Int) (p : ThreadPool) (acts : List Action)
    (s : System) (hnew : New C = .done p) (hexec : exec (start p) acts = some s)
    (hns : noSpawn acts = true) :
    s.workers = [] ∧ (s.pushed.length : Int) ≤ C ∧
    (∀ t, s.crashed = false → s.release = .notCalled → (s.pushed.length : Int) < C →
      ∃ s1, step s (.push t) = some s1 ∧ s1.pushed = s.pushed ++ [t]) ∧
    (∀ t, s.release = .notCalled → (s.pushed.length : Int) = C →
      Push s.pool t = .blocked ∧ step s (.push t) = none ∧
      ∀ i, step s (.handoff i t) = none) ∧
    (∀ t k, s.crashed = false → s.release = .notCalled → (s.pushed.length : Int) = C →
      1 ≤ k → ∃ s1, exec s (spawnCall 0 k ++ [.handoff 0 t]) = some s1 ∧
        s1.pushed = s.pushed ++ [t]) := by
  have hC := new_nonneg C p hnew
  have hinv := inv_exec C.toNat acts (start p) s (inv_start C p hnew) hexec
  obtain ⟨hw, hcs, hd⟩ := noSpawn_exec acts (start p) s ⟨rfl, rfl, rfl⟩ hexec hns
  have hfifo := hinv.fifo
  have hcap := hinv.cap
  have hb := hinv.bound
  rw [hd, List.nil_append] at hfifo
  have hlenEq : s.pushed.length = s.pool.queue.buf.length := by rw [hfifo]
  refine ⟨hw, by omega, ?_, ?_, ?_⟩
  · intro t hcr hrel hlt
    have hopen := hinv.phase.1 hrel
    have hroom : s.pool.queue.buf.length < s.pool.queue.cap := by omega
    refine ⟨{ s with
      pool := { s.pool with queue := { s.pool.queue with buf := s.pool.queue.buf ++ [t] } }
      pushed := s.pushed ++ [t] }, ?_, rfl⟩
    simp [step, hcr, Push, Chan.send, hopen, hroom]
  · intro t hrel hfull
    have hopen := hinv.phase.1 hrel
    have hroom : ¬ s.pool.queue.buf.length < s.pool.queue.cap := by omega
    have hp : Push s.pool t = .blocked := by simp [Push, Chan.send, hopen, hroom]
    refine ⟨hp, ?_, ?_⟩
    · unfold step
      split
      · rfl
      · simp [hp]
    · intro i
      unfold step
      split
      · rfl
      · simp [stateOf, hw]
  · intro t k hcr hrel hfull hk
    have hopen := hinv.phase.1 hrel
    have hidle := Spawn_first_idle s k hw hk
    have hlen : s.pool.queue.buf.length = s.pool.queue.cap := by omega
    have h1 : exec s (spawnCall 0 k) = some (Spawn s k) := by
      have := Spawn_as_steps s k hcr
      rwa [hcs] at this
    have e := Spawn_eq s k
    have f1 : (Spawn s k).pool.queue = s.pool.queue := by rw [e]
    have f2 : (Spawn s k).pushed = s.pushed := by rw [e]
    have f7 : (Spawn s k).crashed = s.crashed := by rw [e]
    cases hx : (Spawn s k).pool.queue.buf ++ [t] with
    | nil => simp at hx
    | cons x rest =>
      have h2 : step (Spawn s k) (.handoff 0 t) = some
          { Spawn s k with
            pool := { (Spawn s k).pool with queue := { (Spawn s k).pool.queue with buf := rest } }
            workers := setState (Spawn s k).workers 0 (.busy x)
            pushed := (Spawn s k).pushed ++ [t]
            dequeued := (Spawn s k).dequeued ++ [x] } := by
        have hcr2 : (Spawn s k).crashed = false := by rw [f7]; exact hcr
        have hopen2 : (Spawn s k).pool.queue.closed = false := by rw [f1]; exact hopen
        have hlen2 : (Spawn s k).pool.queue.buf.length = (Spawn s k).pool.queue.cap := by
          rw [f1]; exact hlen
        simp only [step, hcr2, Bool.false_eq_true, if_false, hidle, hopen2, hlen2, and_self,
          if_true, hx]
      obtain ⟨s3, h3, h4⟩ : ∃ s3, step (Spawn s k) (.handoff 0 t) = some s3 ∧
          s3.pushed = (Spawn s k).pushed ++ [t] := ⟨_, h2, rfl⟩
      refine ⟨s3, ?_, by rw [h4, f2]⟩
      rw [exec_append, h1, Option.some_bind]
      simp only [exec, h3, Option.some_bind]

/-- Instance of the amended C6: the state of `New(1)` after the first push,
which completed. -/
theorem C6_push_blocks_on_full_queue_witness :
    New 1 = .done pool1 ∧ exec (start pool1) [.push 7] = some pushedOne ∧
    noSpawn [.push 7] = true ∧
    (pushedOne.workers = [] ∧ (pushedOne.pushed.length : Int) ≤ 1 ∧
      (∀ t, pushedOne.crashed = false → pushedOne.release = .notCalled →
        (pushedOne.pushed.length : Int) < 1 →
        ∃ s1, step pushedOne (.push t) = some s1 ∧ s1.pushed = pushedOne.pushed ++ [t]) ∧
      (∀ t, pushedOne.release = .notCalled → (pushedOne.pushed.length : Int) = 1 →
        Push pushedOne.pool t = .blocked ∧ step pushedOne (.push t) = none ∧
        ∀ i, step pushedOne (.handoff i t) = none) ∧
      (∀ t k, pushedOne.crashed = false → pushedOne.release = .notCalled →
        (pushedOne.pushed.length : Int) = 1 → 1 ≤ k →
        ∃ s1, exec pushedOne (spawnCall 0 k ++ [.handoff 0 t]) = some s1 ∧
          s1.pushed = pushedOne.pushed ++ [t])) :=
  ⟨by decide, by decide, by decide,
    C6_push_blocks_on_full_queue 1 pool1 [.push 7] pushedOne (by decide) (by decide)
      (by decide)⟩

end threadpool
